import Mathlib

set_option maxRecDepth 2048

/-!
Shallow embedding of the prepify-graph backend core: the literal decoder
(function parse_java_map of src/backend/or_parser.py), the record
extractor (method parse_or_row), the ingestion loop (method parse_or_csv)
and the graph queries (src/backend/graph_builder.py), together with
theorems checking the specification claims against these definitions.

Text is embedded as lists of characters.  Python exceptions inside the
extractor are modelled with Except; the bounded recursion of the Python
decoder is modelled with a fuel parameter whose exhaustion corresponds to
the except branch of parse_java_map.
-/

namespace Prepify

/-- Characters treated as whitespace by the decoder helper skip_ws. -/
def isWs (c : Char) : Bool := c = ' ' ∨ c = '\t' ∨ c = '\n' ∨ c = '\r'

/-- Decoded text, a list of characters. -/
abbrev Str := List Char

/-- Conversion from a string literal to the character-list representation. -/
def str (s : String) : Str := s.data

/-- skip_ws from the current position. -/
def dropWs (l : Str) : Str := l.dropWhile isWs

/-- Whitespace stripped by the Python strip method (ASCII part). -/
def isStripWs (c : Char) : Bool :=
  c = ' ' ∨ c = '\t' ∨ c = '\n' ∨ c = '\r' ∨ c = '\x0b' ∨ c = '\x0c'

/-- Python strip: remove leading and trailing whitespace. -/
def pyStrip (l : Str) : Str :=
  ((l.dropWhile isStripWs).reverse.dropWhile isStripWs).reverse

/-- Lookahead used for a comma inside parse_string (or_parser.py lines
111-120): the comma separates list items only when the next non-whitespace
character opens a map or list or closes the enclosing list. -/
def commaBreaks (rest : Str) : Bool :=
  match (dropWs rest).head? with
  | some c => c == '\x7b' || c == '[' || c == ']'
  | none => false

/-- Identifier characters of the semicolon lookahead (Python isalnum or
underscore; isalnum is modelled on its ASCII fragment). -/
def isIdentChar (c : Char) : Bool := c.isAlphanum || c == '_'

/-- Lookahead used for a semicolon inside parse_string (or_parser.py lines
121-133): the semicolon separates map entries only when followed, after
whitespace, by a nonempty identifier run and an equals sign. -/
def semiBreaks (rest : Str) : Bool :=
  let j := dropWs rest
  (!(j.takeWhile isIdentChar).isEmpty) && ((j.dropWhile isIdentChar).head? == some '=')

/-- The scanning loop of parse_string: consume a text run, tracking a local
bracket depth; returns the consumed characters and the remaining input. -/
def scanText : Str → Nat → Str × Str
  | [], _ => ([], [])
  | c :: rest, depth =>
    if c = '\x7b' ∨ c = '[' then
      let p := scanText rest (depth + 1)
      (c :: p.1, p.2)
    else if c = '\x7d' ∨ c = ']' then
      if 0 < depth then
        let p := scanText rest (depth - 1)
        (c :: p.1, p.2)
      else ([], c :: rest)
    else if depth = 0 ∧ c = ',' then
      if commaBreaks rest then ([], c :: rest)
      else
        let p := scanText rest depth
        (c :: p.1, p.2)
    else if depth = 0 ∧ c = ';' then
      if semiBreaks rest then ([], c :: rest)
      else
        let p := scanText rest depth
        (c :: p.1, p.2)
    else
      let p := scanText rest depth
      (c :: p.1, p.2)

/-- Decoded literal values: text, ordered sequence, or ordered mapping. -/
inductive Value where
  | Text : Str → Value
  | VList : List Value → Value
  | VMap : List (Str × Value) → Value

/-- Python dict assignment: overwrite in place when the key exists,
otherwise append, preserving insertion order. -/
def assocUpsert {α : Type} : List (Str × α) → Str → α → List (Str × α)
  | [], k, v => [(k, v)]
  | (k', v') :: rest, k, v =>
    if k' = k then (k', v) :: rest else (k', v') :: assocUpsert rest k v

/-- Python dict lookup returning an optional value. -/
def mGet {α : Type} (m : List (Str × α)) (k : Str) : Option α :=
  (m.find? (fun kv => kv.1 == k)).map (fun kv => kv.2)

/-- Characters at which parse_key stops. -/
def isKeyStop (c : Char) : Bool :=
  c == '=' || c == ';' || c == '\x7b' || c == '\x7d' || c == '[' || c == ']'

/-- parse_key: consume up to a structural character and strip the result;
returns the key and the remaining input. -/
def parseKeyStr (l : Str) : Str × Str :=
  (pyStrip (l.takeWhile (fun c => !isKeyStop c)),
   l.dropWhile (fun c => !isKeyStop c))

/-- parse_string: scan a text run at depth zero and strip it. -/
def parseStringV (l : Str) : Value × Str :=
  let p := scanText l 0
  (.Text (pyStrip p.1), p.2)

mutual

/-- parse_value with explicit fuel.  The fuel models the bounded recursion
of the Python interpreter; a none result is the internal failure that the
entry point converts to the raw input text. -/
def parseValueF : Nat → Str → Option (Value × Str)
  | 0, _ => none
  | fuel + 1, l =>
    match dropWs l with
    | [] => some (.Text [], [])
    | c :: rest =>
      if c = '\x7b' then parseMapF fuel rest
      else if c = '[' then parseListF fuel rest
      else some (parseStringV (c :: rest))

/-- parse_map after the opening brace has been consumed. -/
def parseMapF : Nat → Str → Option (Value × Str)
  | 0, _ => none
  | fuel + 1, l =>
    match dropWs l with
    | '\x7d' :: rest => some (.VMap [], rest)
    | l' => parseMapLoop fuel l' []

/-- The entry loop of parse_map: read a key, an optional value, then a
separator, accumulating entries. -/
def parseMapLoop : Nat → Str → List (Str × Value) → Option (Value × Str)
  | 0, _, _ => none
  | _ + 1, [], entries => some (.VMap entries, [])
  | fuel + 1, l, entries =>
    let kp := parseKeyStr (dropWs l)
    if kp.1.isEmpty then some (.VMap entries, kp.2)
    else
      match kp.2 with
      | '=' :: rest =>
        match parseValueF fuel rest with
        | none => none
        | some (v, r) => parseMapAfter fuel r (assocUpsert entries kp.1 v)
      | r => parseMapAfter fuel r entries

/-- After one map entry: continue on a semicolon, close on a brace, and
stop otherwise. -/
def parseMapAfter : Nat → Str → List (Str × Value) → Option (Value × Str)
  | 0, _, _ => none
  | fuel + 1, l, entries =>
    match dropWs l with
    | ';' :: rest => parseMapLoop fuel rest entries
    | '\x7d' :: rest => some (.VMap entries, rest)
    | l' => some (.VMap entries, l')

/-- parse_list after the opening bracket has been consumed. -/
def parseListF : Nat → Str → Option (Value × Str)
  | 0, _ => none
  | fuel + 1, l =>
    match dropWs l with
    | ']' :: rest => some (.VList [], rest)
    | l' => parseListLoop fuel l' []

/-- The element loop of parse_list. -/
def parseListLoop : Nat → Str → List Value → Option (Value × Str)
  | 0, _, _ => none
  | _ + 1, [], acc => some (.VList acc.reverse, [])
  | fuel + 1, l, acc =>
    match parseValueF fuel l with
    | none => none
    | some (v, r) =>
      match dropWs r with
      | ',' :: rest => parseListLoop fuel (dropWs rest) (v :: acc)
      | ']' :: rest => some (.VList (v :: acc).reverse, rest)
      | r' => some (.VList (v :: acc).reverse, r')

end

/-- Fuel budget used by the decoder entry point. -/
def javaFuel (s : Str) : Nat := 4 * s.length + 16

/-- The structural parse underlying parse_java_map. -/
def parseTop (s : Str) : Option (Value × Str) := parseValueF (javaFuel s) s

/-- parse_java_map: decode a literal; the except branch of the source
returns the raw input string on structural failure. -/
def parse_java_map (s : Str) : Value :=
  match parseTop s with
  | some (v, _) => v
  | none => .Text s

/-! Relationship graph model and path queries (src/backend/graph_builder.py).
Entity identifiers are opaque strings.  The underlying networkx graph is an
undirected graph; its node set and edge set are embedded as lists. -/

structure Graph where
  nodes : List String
  edges : List (String × String)

/-- Undirected adjacency of the networkx graph. -/
def Graph.adj (g : Graph) (x y : String) : Bool :=
  g.edges.any (fun e => (e.1 == x && e.2 == y) || (e.1 == y && e.2 == x))

/-- Node membership test. -/
def Graph.hasNode (g : Graph) (x : String) : Bool := decide (x ∈ g.nodes)

/-- Adjacency along all consecutive pairs of a node list. -/
def chainB (f : String → String → Bool) : List String → Bool
  | [] => true
  | [_] => true
  | x :: y :: rest => f x y && chainB f (y :: rest)

/-- A path from a to b: nonempty, endpoints as given, consecutive nodes
adjacent, all nodes in the graph. -/
def IsPath (g : Graph) (a b : String) (p : List String) : Prop :=
  p ≠ [] ∧ p.head? = some a ∧ p.getLast? = some b ∧
    chainB g.adj p = true ∧ ∀ x ∈ p, x ∈ g.nodes

/-- A simple path additionally repeats no node. -/
def IsSimplePath (g : Graph) (a b : String) (p : List String) : Prop :=
  IsPath g a b p ∧ p.Nodup

instance (g : Graph) (a b : String) (p : List String) : Decidable (IsPath g a b p) := by
  unfold IsPath; infer_instance

instance (g : Graph) (a b : String) (p : List String) : Decidable (IsSimplePath g a b p) := by
  unfold IsSimplePath; infer_instance

/-- All subsequences of a list, by structural recursion. -/
def subseqs {α : Type} : List α → List (List α)
  | [] => [[]]
  | a :: l => subseqs l ++ (subseqs l).map (a :: ·)

/-- Every list of nodes drawn from the graph node list, in every order;
simple paths are found among these candidates. -/
def candidatePaths (g : Graph) : List (List String) :=
  ((subseqs g.nodes).map List.permutations').flatten

/-- All simple paths from a to b. -/
def simplePaths (g : Graph) (a b : String) : List (List String) :=
  (candidatePaths g).filter (fun p => decide (IsSimplePath g a b p))

/-- Comparison of paths by number of nodes, hence by edge count. -/
def byLen (p q : List String) : Prop := p.length ≤ q.length

instance : DecidableRel byLen := fun p q => Nat.decLe p.length q.length

instance : IsTotal (List String) byLen := ⟨fun p q => Nat.le_total p.length q.length⟩

instance : IsTrans (List String) byLen := ⟨fun _ _ _ => Nat.le_trans⟩

/-- Modelled from the spec: the networkx generator shortest_simple_paths
used by find_top_k_paths is external library code; per the specification
it enumerates the simple paths from a to b in non-decreasing order of edge
count (Yen over the unweighted graph). -/
def shortest_simple_paths (g : Graph) (a b : String) : List (List String) :=
  List.insertionSort byLen (simplePaths g a b)

/-- find_top_k_paths (graph_builder.py lines 49-59): list all ranked simple
paths and keep the first k; the two networkx exceptions (missing node, no
path) are caught and produce the empty list. -/
def find_top_k_paths (g : Graph) (a b : String) (k : Nat) : List (List String) :=
  if g.hasNode a && g.hasNode b then (shortest_simple_paths g a b).take k else []

/-- Modelled from the spec: nx.shortest_path is external library code; per
the specification it is an unweighted breadth-first shortest path, any
deterministic choice among the fewest-edge paths.  Wrapped as in
find_shortest_path (graph_builder.py lines 38-47): both the missing-node
and the no-path exceptions are caught and produce none. -/
def find_shortest_path (g : Graph) (a b : String) : Option (List String) :=
  if g.hasNode a && g.hasNode b then (shortest_simple_paths g a b).head? else none

/-- The loop of find_multi_point_path over the waypoints after the first
segment: each later segment is appended without its first node. -/
def multiRest (g : Graph) : String → List String → Option (List String)
  | _, [] => some []
  | prev, next :: rest =>
    match find_shortest_path g prev next with
    | none => none
    | some seg =>
      match multiRest g next rest with
      | none => none
      | some tl => some (seg.tail ++ tl)

/-- find_multi_point_path (graph_builder.py lines 61-91): fewer than two
waypoints fail; otherwise the consecutive shortest-path segments are
concatenated, dropping the duplicated junction node from every segment
after the first, and any failing segment fails the whole call. -/
def find_multi_point_path (g : Graph) (waypoints : List String) : Option (List String) :=
  match waypoints with
  | a :: b :: rest =>
    match find_shortest_path g a b with
    | none => none
    | some seg =>
      match multiRest g b rest with
      | none => none
      | some tl => some (seg ++ tl)
  | _ => none

/-- Consecutive waypoint pairs. -/
def consecutivePairs (ws : List String) : List (String × String) := ws.zip ws.tail

/-- Shortest-path legs for a pair list, failing as soon as one leg fails. -/
def segmentsOf (g : Graph) : List (String × String) → Option (List (List String))
  | [] => some []
  | pr :: rest =>
    match find_shortest_path g pr.1 pr.2, segmentsOf g rest with
    | some seg, some segs => some (seg :: segs)
    | _, _ => none

/-- Stitching as the spec words it: the first segment in full, every later
segment without its duplicated first node. -/
def stitchSegments : List (List String) → List String
  | [] => []
  | s :: rest => s ++ (rest.map List.tail).flatten

/-- The specification wording of multi_waypoint_path: shortest_path over
each consecutive pair in order, stitched, with no partial result. -/
def multiWaypointSpec (g : Graph) (ws : List String) : Option (List String) :=
  (segmentsOf g (consecutivePairs ws)).map stitchSegments

/-- Node names of the concrete fixtures. -/
def nA : String := "A"

def nB : String := "B"

def nC : String := "C"

def nZ : String := "Z"

/-- Three-node fixture with exactly two simple paths from A to B. -/
def gTwo : Graph :=
  { nodes := [nA, nB, nC], edges := [(nA, nB), (nA, nC), (nC, nB)] }

/-! Record extractor (method parse_or_row of src/backend/or_parser.py).
A CSV row is a string-keyed, string-valued record.  The Python method
returns either the two-element tuple of the missing-identifier branch or
the three-element tuple of the success path; a Python exception raised
while reading the decoded literal is an Except error, caught per row by
the ingestion loop. -/

structure Entity where
  id : Str
  name : Str
  type : Str
  city : Value
  country : Str
  insolvent : Bool

structure Rel where
  source : Str
  target : Str
  type : Str
  active : Bool

/-- The two tuple shapes returned by parse_or_row. -/
inductive RowResult where
  | pair : Option Entity → List Rel → RowResult
  | triple : Option Entity → List Rel → List (Str × Entity) → RowResult

abbrev Row := List (Str × Str)

/-- Row lookup, as the Python dict get on a CSV row. -/
def rowGet (row : Row) (k : Str) : Option Str :=
  (row.find? (fun kv => kv.1 == k)).map (fun kv => kv.2)

def rowGetD (row : Row) (k d : Str) : Str := (rowGet row k).getD d

/-- Python truthiness of a decoded value. -/
def truthy : Value → Bool
  | .Text s => !s.isEmpty
  | .VList l => !l.isEmpty
  | .VMap m => !m.isEmpty

def truthyO : Option Value → Bool
  | none => false
  | some v => truthy v

/-- Lowercasing, on the ASCII fragment of the Python lower method. -/
def lowerStr (s : Str) : Str := s.map Char.toLower

/-- Replace spaces by underscores, as in the derived person identifier. -/
def underscore (s : Str) : Str := s.map (fun c => if c = ' ' then '_' else c)

/-- Read a string field of a decoded map with default empty and strip it;
a non-text value raises (the Python strip attribute error). -/
def getTextStrip (m : List (Str × Value)) (k : Str) : Except Unit Str :=
  match mGet m k with
  | none => .ok []
  | some (.Text s) => .ok (pyStrip s)
  | some _ => .error ()

/-- The udajTyp kod of an item, with the defaults of the source
(missing or non-map udajTyp gives the empty string). -/
def udajKod (im : List (Str × Value)) : Value :=
  match mGet im (str ("udajTyp")) with
  | some (.VMap tm) => (mGet tm (str ("kod"))).getD (.Text [])
  | some _ => .Text []
  | none => .Text []

/-- Comparison of the kod value with a label (Python equality between a
possibly non-string value and a string). -/
def kodEq (im : List (Str × Value)) (s : String) : Bool :=
  match udajKod im with
  | .Text t => t == s.data
  | _ => false

/-- Fields of an osoba sub-record: given name, surname, birth date;
reading them from a non-map truthy value raises. -/
def osobaFields (osoba : Value) : Except Unit (Str × Str × Str) :=
  match osoba with
  | .VMap om => do
    let jmeno ← getTextStrip om (str ("jmeno"))
    let prijmeni ← getTextStrip om (str ("prijmeni"))
    let naroz ← getTextStrip om (str ("narozDatum"))
    .ok (jmeno, prijmeni, naroz)
  | _ => .error ()

/-- The derived person identifier. -/
def personId (jmeno prijmeni naroz : Str) : Str :=
  underscore (str ("RC_") ++ prijmeni ++ str ("_") ++ jmeno ++ str ("_") ++ naroz)

/-- The person entity recorded for a discovered member. -/
def mkPerson (pid jmeno prijmeni : Str) : Entity :=
  { id := pid, name := pyStrip (jmeno ++ [' '] ++ prijmeni),
    type := str ("person"), city := .Text [], country := str ("CZ"),
    insolvent := false }

/-- The role label of a statutory-organ member (or_parser.py lines
259-265): a map funkce reads nazev with default jednatel and lowercases,
a nonempty text funkce lowercases, anything else defaults. -/
def roleOf (mm : List (Str × Value)) : Except Unit Str :=
  match mGet mm (str ("funkce")) with
  | some (.VMap fm) =>
    match (mGet fm (str ("nazev"))).getD (.Text (str ("jednatel"))) with
    | .Text s => .ok (lowerStr s)
    | _ => .error ()
  | some (.Text s) => if s.isEmpty then .ok (str ("jednatel")) else .ok (lowerStr s)
  | some (.VList _) => .ok (str ("jednatel"))
  | none => .ok (str ("jednatel"))

/-- One member of a statutory organ (or_parser.py lines 236-281). -/
def processStatMember (ico : Str) (acc : List Rel × List (Str × Entity))
    (member : Value) : Except Unit (List Rel × List (Str × Entity)) :=
  match member with
  | .VMap mm =>
    if kodEq mm ("STATUTARNI_ORGAN_CLEN") = false then .ok acc
    else
      let osoba := (mGet mm (str ("osoba"))).getD (.VMap [])
      if truthy osoba = false then .ok acc
      else do
        let f ← osobaFields osoba
        if f.2.1.isEmpty then .ok acc
        else
          let pid := personId f.1 f.2.1 f.2.2
          let isActive := !truthyO (mGet mm (str ("vymazDatum")))
          let role ← roleOf mm
          let rel : Rel :=
            { source := pid, target := ico,
              type := if role.isEmpty then str ("jednatel") else role,
              active := isActive }
          .ok (acc.1 ++ [rel], assocUpsert acc.2 pid (mkPerson pid f.1 f.2.1))
  | _ => .ok acc

/-- One shareholder sub-record (or_parser.py lines 288-339). -/
def processSpolMember (ico : Str) (acc : List Rel × List (Str × Entity))
    (spolecnik : Value) : Except Unit (List Rel × List (Str × Entity)) :=
  match spolecnik with
  | .VMap sm =>
    let isActive := !truthyO (mGet sm (str ("vymazDatum")))
    if kodEq sm ("SPOLECNIK_OSOBA") then
      let osoba := (mGet sm (str ("osoba"))).getD (.VMap [])
      if truthy osoba = false then .ok acc
      else do
        let f ← osobaFields osoba
        if f.2.1.isEmpty then .ok acc
        else
          let pid := personId f.1 f.2.1 f.2.2
          let rel : Rel :=
            { source := pid, target := ico, type := str ("společník"),
              active := isActive }
          .ok (acc.1 ++ [rel], assocUpsert acc.2 pid (mkPerson pid f.1 f.2.1))
    else if kodEq sm ("SPOLECNIK_PRAVNICKA_OSOBA") then
      let prav := (mGet sm (str ("pravnickaOsoba"))).getD (.VMap [])
      if truthy prav = false then .ok acc
      else
        match prav with
        | .VMap pm => do
          let shIco ← getTextStrip pm (str ("ico"))
          if shIco.isEmpty then .ok acc
          else
            let rel : Rel :=
              { source := shIco, target := ico, type := str ("společník"),
                active := isActive }
            .ok (acc.1 ++ [rel], acc.2)
        | _ => .error ()
    else .ok acc
  | _ => .ok acc

/-- One top-level item of the decoded literal (or_parser.py lines
225-339). -/
def processUdajeItem (ico : Str) (acc : List Rel × List (Str × Entity))
    (item : Value) : Except Unit (List Rel × List (Str × Entity)) :=
  match item with
  | .VMap im =>
    if kodEq im ("STATUTARNI_ORGAN") then
      match mGet im (str ("podudaje")) with
      | some (.VList ps) => ps.foldlM (processStatMember ico) acc
      | _ => .ok acc
    else if kodEq im ("SPOLECNIK") then
      match mGet im (str ("podudaje")) with
      | some (.VList ps) => ps.foldlM (processSpolMember ico) acc
      | _ => .ok acc
    else .ok acc
  | _ => .ok acc

/-- Is an item a non-deleted registered-seat record. -/
def isSidloCandidate (item : Value) : Bool :=
  match item with
  | .VMap im => kodEq im ("SIDLO") && !truthyO (mGet im (str ("vymazDatum")))
  | _ => false

/-- The obec field of the adresa of a seat item, with the source defaults. -/
def sidloObec (item : Value) : Value :=
  match item with
  | .VMap im =>
    match mGet im (str ("adresa")) with
    | some (.VMap am) => (mGet am (str ("obec"))).getD (.Text [])
    | _ => .Text []
  | _ => .Text []

/-- The loop of or_parser.py lines 198-208: the first non-deleted SIDLO
item decides the city (possibly empty). -/
def cityFromUdaje (udaje : List Value) : Option Value :=
  (udaje.find? isSidloCandidate).map sidloObec

/-- The identifier of a row, stripped. -/
def rowIco (row : Row) : Str := pyStrip (rowGetD row (str ("ico")) [])

/-- The display name with its two fallbacks. -/
def rowName (row : Row) (ico : Str) : Str :=
  let n := pyStrip (rowGetD row (str ("nazev")) (rowGetD row (str ("obchodniJmeno")) []))
  if n.isEmpty then str ("Společnost ") ++ ico else n

/-- The decoded udaje list of a row (or_parser.py lines 185-195): a decoded
list is kept, a decoded map is wrapped in a singleton list, and anything
else yields the empty list. -/
def rowUdaje (row : Row) : List Value :=
  let raw := rowGetD row (str ("udaje")) []
  if raw.isEmpty then []
  else
    match parse_java_map raw with
    | .VList l => l
    | .VMap m => [.VMap m]
    | .Text _ => []

/-- The flat-column city fallback of a row. -/
def rowFlatCity (row : Row) : Str :=
  pyStrip (rowGetD row (str ("sidlo_nazevObce")) (rowGetD row (str ("mesto")) []))

/-- The fallback chain of or_parser.py lines 209-217: an untruthy literal
city falls back to the flat column, and an untruthy result to the unknown
sentinel. -/
def cityChain (v : Value) (flat : Str) : Value :=
  let city1 := if truthy v then v else .Text flat
  if truthy city1 then city1 else .Text (str ("neznámé"))

/-- The city of a row (or_parser.py lines 197-211 and 217): decoded literal
first, then the flat columns, then the unknown sentinel. -/
def rowCityF (row : Row) : Value :=
  cityChain ((cityFromUdaje (rowUdaje row)).getD (.Text [])) (rowFlatCity row)

/-- The company entity built for a row. -/
def mkCompany (row : Row) (ico : Str) : Entity :=
  { id := ico, name := rowName row ico, type := str ("company"),
    city := rowCityF row, country := str ("CZ"), insolvent := false }

/-- parse_or_row (or_parser.py lines 170-341). -/
def parse_or_row (row : Row) : Except Unit RowResult :=
  if (rowIco row).isEmpty then .ok (.pair none [])
  else
    match (rowUdaje row).foldlM (processUdajeItem (rowIco row))
        (([] : List Rel), ([] : List (Str × Entity))) with
    | .error e => .error e
    | .ok rp => .ok (.triple (some (mkCompany row (rowIco row))) rp.1 rp.2)

/-- The city recorded by a successful extraction. -/
def rowCity (row : Row) : Option Value :=
  match parse_or_row row with
  | .ok (.triple (some c) _ _) => some c.city
  | _ => none

/-- The zapisDatum text of an item (empty when absent or not text). -/
def zapisOf (item : Value) : Str :=
  match item with
  | .VMap im =>
    match mGet im (str ("zapisDatum")) with
    | some (.Text t) => t
    | _ => []
  | _ => []

/-- Lexicographic strict order on text, the chronological order of ISO
dates. -/
def strLt : Str → Str → Bool
  | [], [] => false
  | [], _ :: _ => true
  | _ :: _, [] => false
  | a :: as, b :: bs => if a < b then true else if b < a then false else strLt as bs

/-- Modelled from the spec: the most recent non-terminated registered-seat
sub-record — among the non-deleted SIDLO items, one whose registration
date is maximal, the later occurrence winning ties. -/
def mostRecentSidlo (udaje : List Value) : Option Value :=
  (udaje.filter isSidloCandidate).foldl
    (fun best it =>
      match best with
      | none => some it
      | some b => if strLt (zapisOf it) (zapisOf b) then best else some it)
    none

/-- Modelled from the spec: the city of the most recent non-terminated
registered-seat sub-record. -/
def cityMostRecentSpec (udaje : List Value) : Option Value :=
  (mostRecentSidlo udaje).map sidloObec

/-- The amended wording of the city rule: the first non-deleted SIDLO
sub-record in literal order decides the city, with the flat-column and
sentinel fallbacks. -/
def cityAmendedSpec (row : Row) : Value :=
  let fromSidlo :=
    match (rowUdaje row).filter isSidloCandidate with
    | [] => Value.Text []
    | it :: _ => sidloObec it
  if truthy fromSidlo then fromSidlo
  else if (rowFlatCity row).isEmpty then .Text (str ("neznámé"))
  else .Text (rowFlatCity row)

/-! Ingestion pipeline (method parse_or_csv, or_parser.py lines 459-541).
File access and encoding detection are external collaborators; the loop
over the decoded rows is embedded. -/

structure ORState where
  companies : List Entity
  relationships : List Rel
  persons : List (Str × Entity)
  icos : List Str
  parsedCount : Nat
  skipped : Nat

def ORState.init : ORState :=
  { companies := [], relationships := [], persons := [], icos := [],
    parsedCount := 0, skipped := 0 }

/-- One iteration of the row loop (or_parser.py lines 500-530): a raised
error or a missing company counts as skipped, a known identifier is
dropped entirely, and otherwise the extracted company, relationships and
persons are accumulated. -/
def stepRow (st : ORState) (row : Row) : ORState :=
  match parse_or_row row with
  | .error _ => { st with skipped := st.skipped + 1 }
  | .ok (.pair none _) => { st with skipped := st.skipped + 1 }
  | .ok (.pair (some _) _) => { st with skipped := st.skipped + 1 }
  | .ok (.triple none _ _) => { st with skipped := st.skipped + 1 }
  | .ok (.triple (some c) rels ps) =>
    if c.id ∈ st.icos then st
    else
      { companies := st.companies ++ [c],
        relationships := st.relationships ++ rels,
        persons := ps.foldl (fun m kv => assocUpsert m kv.1 kv.2) st.persons,
        icos := c.id :: st.icos,
        parsedCount := st.parsedCount + 1,
        skipped := st.skipped }

/-- The row loop, with the limit check at the top of each iteration. -/
def orFold (limit : Nat) : ORState → List Row → ORState
  | st, [] => st
  | st, row :: rest =>
    if limit ≤ st.parsedCount then st else orFold limit (stepRow st row) rest

/-- parse_or_csv: the entity list (companies then the deduplicated persons)
and the relationship list. -/
def parse_or_csv (rows : List Row) (max_rows : Nat) : List Entity × List Rel :=
  ((orFold max_rows ORState.init rows).companies ++
    (orFold max_rows ORState.init rows).persons.map Prod.snd,
   (orFold max_rows ORState.init rows).relationships)

/-- The successfully extracted companies of a row stream in input order,
deduplicated by identifier, without any limit. -/
def goodStream : List Str → List Row → List Entity
  | _, [] => []
  | seen, row :: rest =>
    match parse_or_row row with
    | .ok (.triple (some c) _ _) =>
      if c.id ∈ seen then goodStream seen rest
      else c :: goodStream (c.id :: seen) rest
    | _ => goodStream seen rest

/-! Concrete fixture rows. -/

/-- A row with no identifier. -/
def rowNoIco : Row := [(str ("nazev"), str ("Firma"))]

/-- A row with a whitespace-only identifier. -/
def rowBlankIco : Row := [(str ("ico"), str ("  "))]

/-- A row with an identifier and no literal. -/
def rowGood : Row := [(str ("ico"), str ("123"))]

/-- The company extracted from rowGood. -/
def cGood : Entity :=
  { id := str ("123"), name := str ("Společnost 123"), type := str ("company"),
    city := .Text (str ("neznámé")), country := str ("CZ"), insolvent := false }

/-- A row whose literal carries two non-deleted registered seats, the more
recent one second. -/
def rowTwoSidlo : Row :=
  [(str ("ico"), str ("123")),
   (str ("udaje"),
    str ("[\x7budajTyp=\x7bkod=SIDLO\x7d;zapisDatum=2001;adresa=\x7bobec=Brno\x7d\x7d, \x7budajTyp=\x7bkod=SIDLO\x7d;zapisDatum=2020;adresa=\x7bobec=Praha\x7d\x7d]"))]

/-- A row whose identifier coincides with the derived identifier of the
person its literal discovers. -/
def rowClash : Row :=
  [(str ("ico"), str ("RC_Novak_Jan_1980")),
   (str ("udaje"),
    str ("\x7budajTyp=\x7bkod=STATUTARNI_ORGAN\x7d;podudaje=[\x7budajTyp=\x7bkod=STATUTARNI_ORGAN_CLEN\x7d;osoba=\x7bjmeno=Jan;prijmeni=Novak;narozDatum=1980\x7d\x7d]\x7d"))]

/-- A state that has already seen the identifier of rowGood. -/
def stSeen : ORState :=
  { companies := [], relationships := [], persons := [], icos := [str ("123")],
    parsedCount := 0, skipped := 0 }

/-! Theorems. -/

/-- Helper: a list whose optional head is a given element contains it. -/
theorem head?_mem' {α : Type} {l : List α} {a : α} (h : l.head? = some a) :
    a ∈ l := by
  cases l with
  | nil => cases h
  | cons x xs =>
    simp only [List.head?_cons, Option.some.injEq] at h
    exact h ▸ List.mem_cons_self x xs

/-- Helper: a list whose optional last entry is a given element contains it. -/
theorem getLast?_mem' {α : Type} {l : List α} {a : α} (h : l.getLast? = some a) :
    a ∈ l := by
  induction l with
  | nil => cases h
  | cons x xs ih =>
    cases xs with
    | nil =>
      simp only [List.getLast?_singleton, Option.some.injEq] at h
      exact h ▸ List.mem_cons_self x []
    | cons y ys =>
      rw [List.getLast?_cons_cons] at h
      exact List.mem_cons_of_mem x (ih h)

/-- The structural subsequence enumeration is exactly the sublists. -/
theorem mem_subseqs {α : Type} {l q : List α} : q ∈ subseqs l ↔ q.Sublist l := by
  induction l generalizing q with
  | nil => simp [subseqs, List.sublist_nil]
  | cons a l ih =>
    simp only [subseqs, List.mem_append, List.mem_map, List.sublist_cons_iff, ih]
    constructor
    · rintro (h | ⟨r, hr, rfl⟩)
      · exact Or.inl h
      · exact Or.inr ⟨r, rfl, hr⟩
    · rintro (h | ⟨r, rfl, hr⟩)
      · exact Or.inl h
      · exact Or.inr ⟨r, hr, rfl⟩

/-- Soundness of the simple-path enumeration. -/
theorem mem_simplePaths {g : Graph} {a b : String} {p : List String}
    (h : p ∈ simplePaths g a b) : IsSimplePath g a b p := by
  unfold simplePaths at h
  exact of_decide_eq_true (List.mem_filter.1 h).2

/-- Completeness of the simple-path enumeration. -/
theorem simplePaths_complete {g : Graph} {a b : String} {p : List String}
    (h : IsSimplePath g a b p) : p ∈ simplePaths g a b := by
  refine List.mem_filter.2 ⟨?_, decide_eq_true h⟩
  obtain ⟨⟨hne, hhd, hlast, hch, hsub⟩, hnd⟩ := h
  obtain ⟨q, hq, hsq⟩ := List.subperm_of_subset hnd (fun x hx => hsub x hx)
  unfold candidatePaths
  rw [List.mem_flatten]
  exact ⟨q.permutations', List.mem_map_of_mem _ (mem_subseqs.2 hsq),
    List.mem_permutations'.2 hq.symm⟩

/-- A successful shortest-path query returns a simple path. -/
theorem find_shortest_path_sound {g : Graph} {a b : String} {p : List String}
    (h : find_shortest_path g a b = some p) : IsSimplePath g a b p := by
  unfold find_shortest_path at h
  split at h
  · unfold shortest_simple_paths at h
    exact mem_simplePaths ((List.mem_insertionSort byLen).1 (head?_mem' h))
  · cases h

/-- C1: for every input string the literal decoder parse_java_map returns a
value and never fails, and whenever the structural parse fails the returned
value is the original input text as a Text value, so the caller never
observes a failure. -/
theorem parse_java_map_total (s : Str) :
    (∃ v r, parseTop s = some (v, r) ∧ parse_java_map s = v) ∨
    (parseTop s = none ∧ parse_java_map s = .Text s) := by
  cases h : parseTop s with
  | none => exact Or.inr ⟨rfl, by simp [parse_java_map, h]⟩
  | some p => exact Or.inl ⟨p.1, p.2, by simp [h], by simp [parse_java_map, h]⟩

/-- The comma lookahead condition, spelled as in the specification. -/
theorem commaBreaks_iff (rest : Str) :
    commaBreaks rest = true ↔
      ((dropWs rest).head? = some '\x7b' ∨ (dropWs rest).head? = some '[' ∨
        (dropWs rest).head? = some ']') := by
  unfold commaBreaks
  cases h : (dropWs rest).head? with
  | none => simp
  | some c => simp [Bool.or_eq_true, beq_iff_eq, or_assoc]

/-- C2: while scanning a Text run at the current depth, a comma terminates
the run exactly when the next non-whitespace character is an opening brace,
an opening bracket or a closing bracket, and otherwise the comma is
consumed as text; decoding the disambiguation example yields exactly the
two entries note and city with the comma kept inside the note text. -/
theorem parse_java_map_comma_rule :
    (∀ rest : Str,
      scanText (',' :: rest) 0 =
        if (dropWs rest).head? = some '\x7b' ∨ (dropWs rest).head? = some '[' ∨
            (dropWs rest).head? = some ']'
        then ([], ',' :: rest)
        else (',' :: (scanText rest 0).1, (scanText rest 0).2)) ∧
    parse_java_map (str ("\x7bnote=Výroba, obchod a služby;city=Praha\x7d")) =
      .VMap [(str ("note"), .Text (str ("Výroba, obchod a služby"))),
             (str ("city"), .Text (str ("Praha")))] := by
  constructor
  · intro rest
    show (if (',' : Char) = '\x7b' ∨ (',' : Char) = '[' then _
          else if (',' : Char) = '\x7d' ∨ (',' : Char) = ']' then _
          else if (0 : Nat) = 0 ∧ (',' : Char) = ',' then
            if commaBreaks rest then _ else _
          else _) = _
    rw [if_neg (by decide), if_neg (by decide), if_pos (by decide)]
    exact if_congr (commaBreaks_iff rest) rfl rfl
  · rfl

/-- C3: the ranked-paths query returns at most k paths, every returned path
is a simple path from source to target, the result is ordered by
non-decreasing edge count, and when at most k simple paths exist the result
contains exactly the simple paths; on the fixture with exactly two simple
paths from A to B, asking for three returns exactly those two in ascending
length order. -/
theorem find_top_k_paths_correct :
    (∀ (g : Graph) (a b : String) (k : Nat),
      (find_top_k_paths g a b k).length ≤ k ∧
      List.Sorted byLen (find_top_k_paths g a b k) ∧
      (∀ p ∈ find_top_k_paths g a b k, IsSimplePath g a b p) ∧
      ((simplePaths g a b).length ≤ k →
        ∀ p, p ∈ find_top_k_paths g a b k ↔ IsSimplePath g a b p)) ∧
    find_top_k_paths gTwo nA nB 3 = [[nA, nB], [nA, nC, nB]] := by
  constructor
  · intro g a b k
    have hmem : ∀ p ∈ find_top_k_paths g a b k, IsSimplePath g a b p := by
      intro p hp
      unfold find_top_k_paths at hp
      split at hp
      · have hp' := List.mem_of_mem_take hp
        unfold shortest_simple_paths at hp'
        exact mem_simplePaths ((List.mem_insertionSort byLen).1 hp')
      · cases hp
    refine ⟨?_, ?_, hmem, ?_⟩
    · unfold find_top_k_paths
      split
      · simp only [List.length_take]
        exact min_le_left _ _
      · exact Nat.zero_le k
    · unfold find_top_k_paths
      split
      · exact List.Pairwise.sublist (List.take_sublist _ _)
          (List.sorted_insertionSort byLen _)
      · exact List.sorted_nil
    · intro hlen p
      refine ⟨fun hp => hmem p hp, fun hsp => ?_⟩
      have hin : p ∈ simplePaths g a b := simplePaths_complete hsp
      obtain ⟨⟨hne, hhd, hlast, hch, hsub⟩, hnd⟩ := hsp
      have hA : g.hasNode a = true := decide_eq_true (hsub a (head?_mem' hhd))
      have hB : g.hasNode b = true := decide_eq_true (hsub b (getLast?_mem' hlast))
      unfold find_top_k_paths
      rw [if_pos (by rw [hA, hB]; rfl)]
      have hlen' : (shortest_simple_paths g a b).length ≤ k := by
        unfold shortest_simple_paths
        rw [List.length_insertionSort]
        exact hlen
      rw [List.take_of_length_le hlen']
      unfold shortest_simple_paths
      exact (List.mem_insertionSort byLen).2 hin
  · decide

/-- Witness for C3 at the concrete fixture. -/
theorem find_top_k_paths_correct_witness :
    IsSimplePath gTwo nA nB [nA, nC, nB] :=
  (find_top_k_paths_correct.1 gTwo nA nB 3).2.2.1 [nA, nC, nB] (by decide)

/-- Helper: consecutive pairs of a list with at least two elements. -/
theorem consecutivePairs_cons_cons (a b : String) (rest : List String) :
    consecutivePairs (a :: b :: rest) = (a, b) :: consecutivePairs (b :: rest) := rfl

/-- Helper: legs of a pair list, first pair split off. -/
theorem segmentsOf_cons (g : Graph) (pr : String × String)
    (rest : List (String × String)) :
    segmentsOf g (pr :: rest) =
      match find_shortest_path g pr.1 pr.2, segmentsOf g rest with
      | some seg, some segs => some (seg :: segs)
      | _, _ => none := rfl

/-- Helper for C4: the stitching loop agrees with the spec-side mapping
over consecutive pairs. -/
theorem multiRest_eq_segments (g : Graph) :
    ∀ (rest : List String) (prev : String),
      multiRest g prev rest =
        (segmentsOf g (consecutivePairs (prev :: rest))).map
          (fun segs => (segs.map List.tail).flatten) := by
  intro rest
  induction rest with
  | nil => intro prev; rfl
  | cons next rs ih =>
    intro prev
    rw [consecutivePairs_cons_cons, segmentsOf_cons]
    show (match find_shortest_path g prev next with
      | none => none
      | some seg =>
        match multiRest g next rs with
        | none => none
        | some tl => some (seg.tail ++ tl)) = _
    rw [ih next]
    cases h1 : find_shortest_path g prev next with
    | none =>
      cases segmentsOf g (consecutivePairs (next :: rs)) <;> rfl
    | some seg =>
      cases segmentsOf g (consecutivePairs (next :: rs)) <;> rfl

/-- C4: with at least two waypoints, find_multi_point_path equals the
shortest-path legs of the consecutive waypoint pairs stitched together,
dropping the duplicated junction node from every segment after the first,
and it is none exactly when some leg fails, with no partial result. -/
theorem find_multi_point_path_eq_spec (g : Graph) (ws : List String)
    (h : 2 ≤ ws.length) :
    find_multi_point_path g ws = multiWaypointSpec g ws := by
  match ws with
  | [] => cases h
  | [a] => simp at h
  | a :: b :: rest =>
    unfold multiWaypointSpec
    rw [consecutivePairs_cons_cons, segmentsOf_cons]
    show (match find_shortest_path g a b with
      | none => none
      | some seg =>
        match multiRest g b rest with
        | none => none
        | some tl => some (seg ++ tl)) = _
    rw [multiRest_eq_segments g rest b]
    cases h1 : find_shortest_path g a b with
    | none =>
      cases segmentsOf g (consecutivePairs (b :: rest)) <;> rfl
    | some seg =>
      cases segmentsOf g (consecutivePairs (b :: rest)) <;> rfl

/-- Witness for C4 at the concrete fixture. -/
theorem find_multi_point_path_eq_spec_witness :
    find_multi_point_path gTwo [nA, nB, nC] = multiWaypointSpec gTwo [nA, nB, nC] :=
  find_multi_point_path_eq_spec gTwo [nA, nB, nC] (by decide)

/-- C5: the shortest-path query returns none, not a failure, both when an
endpoint is absent from the graph and when both endpoints exist but no path
connects them; the two conditions are indistinguishable to the caller. -/
theorem find_shortest_path_not_found (g : Graph) (a b : String) :
    ((g.hasNode a = false ∨ g.hasNode b = false) →
      find_shortest_path g a b = none) ∧
    ((¬ ∃ p, IsPath g a b p) → find_shortest_path g a b = none) := by
  constructor
  · intro h
    unfold find_shortest_path
    rw [if_neg]
    intro hc
    rcases h with h | h <;> rw [h] at hc <;> simp at hc
  · intro h
    cases hfsp : find_shortest_path g a b with
    | none => rfl
    | some p => exact absurd ⟨p, (find_shortest_path_sound hfsp).1⟩ h

/-- Witness for C5: an absent endpoint on the concrete fixture. -/
theorem find_shortest_path_not_found_witness :
    find_shortest_path gTwo nZ nA = none :=
  (find_shortest_path_not_found gTwo nZ nA).1 (Or.inl (by decide))

/-- C6 counterexample: on a row with no identifier, parse_or_row returns
the two-element tuple of none and the empty list, not a three-element
tuple carrying an empty person mapping. -/
theorem parse_or_row_pair_counterexample :
    parse_or_row rowNoIco = .ok (.pair none []) ∧
    parse_or_row rowNoIco ≠ .ok (.triple none [] []) := by
  refine ⟨rfl, fun h => ?_⟩
  injection h with h2
  injection h2

/-- C6 amended: a row whose identifier field is missing or strips to empty
yields the pair of none and the empty relationship list — the skip result
of the extractor — and no error, so the batch is not aborted. -/
theorem parse_or_row_missing_ico (row : Row) (h : rowIco row = []) :
    parse_or_row row = .ok (.pair none []) := by
  simp only [parse_or_row, h]
  rfl

/-- Witness for the amended C6 at a concrete whitespace-identifier row. -/
theorem parse_or_row_missing_ico_witness :
    parse_or_row rowBlankIco = .ok (.pair none []) :=
  parse_or_row_missing_ico rowBlankIco rfl

/-- C7 counterexample: a literal with two non-deleted registered seats
whose more recent one is listed second; the extractor records the city of
the first sub-record, not the city of the most recent one. -/
theorem rowCity_most_recent_counterexample :
    rowCity rowTwoSidlo = some (.Text (str ("Brno"))) ∧
    cityMostRecentSpec (rowUdaje rowTwoSidlo) = some (.Text (str ("Praha"))) ∧
    str ("Brno") ≠ str ("Praha") := ⟨rfl, rfl, by decide⟩

/-- Helper: the first match of a predicate is the head of the filtered
list. -/
theorem find?_eq_head_filter {α : Type} (p : α → Bool) (l : List α) :
    l.find? p = (l.filter p).head? := by
  induction l with
  | nil => rfl
  | cons a t ih =>
    cases h : p a with
    | true =>
      rw [List.find?_cons_of_pos t h, List.filter_cons_of_pos h]
      rfl
    | false =>
      rw [List.find?_cons_of_neg t (by simp [h]), List.filter_cons_of_neg (by simp [h]), ih]

/-- Helper: truthiness of a text value. -/
theorem truthy_Text (s : Str) : truthy (.Text s) = !s.isEmpty := rfl

/-- Helper: the two-stage fallback chain in closed form. -/
theorem cityChain_eq (v : Value) (flat : Str) :
    cityChain v flat =
      if truthy v then v
      else if flat.isEmpty then .Text (str ("neznámé")) else .Text flat := by
  unfold cityChain
  cases hv : truthy v with
  | true => simp [hv]
  | false =>
    simp only [hv, Bool.false_eq_true, if_false]
    rw [truthy_Text]
    cases he : flat.isEmpty with
    | true => simp [he]
    | false => simp [he]

/-- Helper: the city computation of the source equals the amended wording. -/
theorem rowCityF_eq_amended (row : Row) : rowCityF row = cityAmendedSpec row := by
  unfold rowCityF cityAmendedSpec
  rw [cityChain_eq]
  have hv : (cityFromUdaje (rowUdaje row)).getD (.Text []) =
      (match (rowUdaje row).filter isSidloCandidate with
        | [] => Value.Text []
        | it :: _ => sidloObec it) := by
    unfold cityFromUdaje
    rw [find?_eq_head_filter]
    cases (rowUdaje row).filter isSidloCandidate <;> rfl
  rw [hv]

/-- C7 amended: the city of a successfully extracted company equals the
city of the first non-deleted SIDLO sub-record in literal order, falling
back to the flat row column when no such sub-record exists or its city is
empty, and to the unknown sentinel otherwise. -/
theorem rowCity_amended (row : Row) (c : Value) (h : rowCity row = some c) :
    c = cityAmendedSpec row := by
  unfold rowCity at h
  split at h
  case _ c' rels ps heq =>
    injection h with h
    subst h
    unfold parse_or_row at heq
    split at heq
    · injection heq with heq
      injection heq
    · split at heq
      · cases heq
      · injection heq with heq
        injection heq with h1 h2 h3
        injection h1 with h1
        rw [← h1]
        exact rowCityF_eq_amended row
  case _ => cases h

/-- Witness for the amended C7 at the two-seat fixture row. -/
theorem rowCity_amended_witness :
    Value.Text (str ("Brno")) = cityAmendedSpec rowTwoSidlo :=
  rowCity_amended rowTwoSidlo (.Text (str ("Brno"))) rfl

/-- Helper: the loop is inert once the limit is reached. -/
theorem orFold_stop {limit : Nat} {st : ORState} (h : limit ≤ st.parsedCount) :
    ∀ rows, orFold limit st rows = st := by
  intro rows
  cases rows with
  | nil => rfl
  | cons r rest => simp [orFold, h]

/-- Helper: the ingestion loop yields the limited prefix of the unlimited
deduplicated company stream. -/
theorem orFold_companies (limit : Nat) :
    ∀ (rows : List Row) (st : ORState),
      (orFold limit st rows).companies =
        st.companies ++ (goodStream st.icos rows).take (limit - st.parsedCount) := by
  intro rows
  induction rows with
  | nil => intro st; simp [orFold, goodStream]
  | cons row rest ih =>
    intro st
    by_cases hl : limit ≤ st.parsedCount
    · have h0 : limit - st.parsedCount = 0 := Nat.sub_eq_zero_of_le hl
      simp [orFold, hl, h0]
    · rw [show orFold limit st (row :: rest) = orFold limit (stepRow st row) rest
        from by simp [orFold, hl]]
      cases hp : parse_or_row row with
      | error e =>
        rw [ih]
        simp [stepRow, hp, goodStream]
      | ok r =>
        match r with
        | .pair none rels =>
          rw [ih]
          simp [stepRow, hp, goodStream]
        | .pair (some c) rels =>
          rw [ih]
          simp [stepRow, hp, goodStream]
        | .triple none rels ps =>
          rw [ih]
          simp [stepRow, hp, goodStream]
        | .triple (some c) rels ps =>
          by_cases hdup : c.id ∈ st.icos
          · rw [ih]
            simp [stepRow, hp, goodStream, hdup]
          · rw [ih]
            obtain ⟨k, hk⟩ : ∃ k, limit - st.parsedCount = k + 1 :=
              ⟨limit - st.parsedCount - 1, by omega⟩
            simp only [stepRow, hp, goodStream, hdup, if_neg, ite_false, ite_true,
              if_false, if_true]
            rw [hk]
            rw [show limit - (st.parsedCount + 1) = k from by omega]
            simp [List.take_succ_cons, hdup]

/-- C8: the ingestion loop processes rows in input order and stops once
exactly the limit of companies has been successfully extracted: the
accumulated company list is the limit-length prefix of the unlimited
deduplicated company stream, so skipped rows and duplicate identifiers do
not count against the limit, and the entity list of parse_or_csv starts
with that prefix. -/
theorem parse_or_csv_limit (rows : List Row) (limit : Nat) :
    (orFold limit ORState.init rows).companies = (goodStream [] rows).take limit ∧
    (parse_or_csv rows limit).1 =
      (goodStream [] rows).take limit ++
        (orFold limit ORState.init rows).persons.map Prod.snd := by
  have h := orFold_companies limit rows ORState.init
  have h' : (orFold limit ORState.init rows).companies =
      (goodStream [] rows).take limit := by
    simpa [ORState.init] using h
  exact ⟨h', by unfold parse_or_csv; rw [h']⟩

/-- Helper: a row whose company identifier was already seen leaves the
loop state untouched. -/
theorem stepRow_dup {st : ORState} {row : Row} {c : Entity} {rels : List Rel}
    {ps : List (Str × Entity)}
    (h : parse_or_row row = .ok (.triple (some c) rels ps))
    (hdup : c.id ∈ st.icos) : stepRow st row = st := by
  unfold stepRow
  rw [h]
  show (if c.id ∈ st.icos then st else _) = st
  rw [if_pos hdup]

/-- Helper: identifiers of accumulated companies stay inside the seen set
and stay distinct. -/
theorem orFold_nodup (limit : Nat) :
    ∀ (rows : List Row) (st : ORState),
      (∀ e ∈ st.companies, e.id ∈ st.icos) →
      (st.companies.map Entity.id).Nodup →
      ((orFold limit st rows).companies.map Entity.id).Nodup := by
  intro rows
  induction rows with
  | nil => intro st _ h2; simpa [orFold] using h2
  | cons row rest ih =>
    intro st h1 h2
    by_cases hl : limit ≤ st.parsedCount
    · simpa [orFold, hl] using h2
    · rw [show orFold limit st (row :: rest) = orFold limit (stepRow st row) rest
        from by simp [orFold, hl]]
      cases hp : parse_or_row row with
      | error e =>
        refine ih _ ?_ ?_ <;> simp only [stepRow, hp] <;> assumption
      | ok r =>
        match r with
        | .pair none rels =>
          refine ih _ ?_ ?_ <;> simp only [stepRow, hp] <;> assumption
        | .pair (some c) rels =>
          refine ih _ ?_ ?_ <;> simp only [stepRow, hp] <;> assumption
        | .triple none rels ps =>
          refine ih _ ?_ ?_ <;> simp only [stepRow, hp] <;> assumption
        | .triple (some c) rels ps =>
          by_cases hdup : c.id ∈ st.icos
          · refine ih _ ?_ ?_ <;> rw [stepRow_dup hp hdup] <;> assumption
          · refine ih _ ?_ ?_
            · intro e he
              simp only [stepRow, hp, if_neg hdup] at he ⊢
              rcases List.mem_append.1 he with he | he
              · exact List.mem_cons_of_mem _ (h1 e he)
              · rw [List.mem_singleton.1 he]
                exact List.mem_cons_self _ _
            · simp only [stepRow, hp, if_neg hdup, List.map_append, List.map_cons,
                List.map_nil]
              rw [List.nodup_append]
              refine ⟨h2, List.nodup_singleton _, ?_⟩
              intro x hx
              simp only [List.mem_singleton]
              intro hxc
              apply hdup
              rw [← hxc]
              obtain ⟨e, he, rfl⟩ := List.mem_map.1 hx
              exact h1 e he

/-- C9 counterexample: a company row whose identifier coincides with the
derived identifier of the person discovered in its own literal; feeding it
twice leaves two entities with that identifier in the final entity list,
so the final list does not hold exactly one entity with the identifier. -/
theorem dedup_entity_count_counterexample :
    (((parse_or_csv [rowClash, rowClash] 10).1).filter
        (fun e => e.id == str ("RC_Novak_Jan_1980"))).length = 2 := rfl

/-- C9 amended: feeding the same company row twice gives the same loop
state and the same parse_or_csv output as feeding it once, the identifiers
of accumulated companies are always distinct, and with a positive limit the
double feed accumulates exactly the one company of the row; only a
discovered person entity can coincidentally repeat the identifier in the
final entity list. -/
theorem ingest_dedup_idempotent (row : Row) (rows : List Row) (limit : Nat)
    (c : Entity) (rels : List Rel) (ps : List (Str × Entity))
    (h : parse_or_row row = .ok (.triple (some c) rels ps)) :
    orFold limit ORState.init (row :: row :: rows) =
      orFold limit ORState.init (row :: rows) ∧
    parse_or_csv (row :: row :: rows) limit = parse_or_csv (row :: rows) limit ∧
    (∀ (rs : List Row) (lim : Nat),
      ((orFold lim ORState.init rs).companies.map Entity.id).Nodup) ∧
    (1 ≤ limit → (orFold limit ORState.init [row, row]).companies = [c]) := by
  have hi0 : ORState.init.parsedCount = 0 := rfl
  have hic : ORState.init.icos = [] := rfl
  have hi1 : (stepRow ORState.init row).icos = c.id :: ORState.init.icos := by
    simp [stepRow, h, hic]
  have key : orFold limit ORState.init (row :: row :: rows) =
      orFold limit ORState.init (row :: rows) := by
    by_cases hl : limit ≤ ORState.init.parsedCount
    · rw [orFold_stop hl, orFold_stop hl]
    · rw [show orFold limit ORState.init (row :: row :: rows) =
          orFold limit (stepRow ORState.init row) (row :: rows)
        from by simp [orFold, hl]]
      rw [show orFold limit ORState.init (row :: rows) =
          orFold limit (stepRow ORState.init row) rows
        from by simp [orFold, hl]]
      by_cases hl1 : limit ≤ (stepRow ORState.init row).parsedCount
      · rw [orFold_stop hl1, orFold_stop hl1]
      · rw [show orFold limit (stepRow ORState.init row) (row :: rows) =
            orFold limit (stepRow (stepRow ORState.init row) row) rows
          from by simp [orFold, hl1]]
        rw [stepRow_dup h (by rw [hi1]; exact List.mem_cons_self _ _)]
  refine ⟨key, by unfold parse_or_csv; rw [key], ?_, ?_⟩
  · intro rs lim
    exact orFold_nodup lim rs ORState.init (by intro e he; cases he) (by constructor)
  · intro hlim
    have hl : ¬ (limit ≤ ORState.init.parsedCount) := by
      rw [hi0]
      omega
    have hc1 : (stepRow ORState.init row).companies = [c] := by
      simp [stepRow, h, hic, ORState.init]
    rw [show orFold limit ORState.init [row, row] =
        orFold limit (stepRow ORState.init row) [row]
      from by simp [orFold, hl]]
    by_cases h2 : limit ≤ (stepRow ORState.init row).parsedCount
    · rw [orFold_stop h2]
      exact hc1
    · rw [show orFold limit (stepRow ORState.init row) [row] =
          orFold limit (stepRow (stepRow ORState.init row) row) []
        from by simp [orFold, h2]]
      rw [stepRow_dup h (by rw [hi1]; exact List.mem_cons_self _ _)]
      exact hc1

/-- Witness for the amended C9 at the concrete no-literal row. -/
theorem ingest_dedup_idempotent_witness :
    orFold 5 ORState.init [rowGood, rowGood] = orFold 5 ORState.init [rowGood] :=
  (ingest_dedup_idempotent rowGood [] 5 cGood [] [] rfl).1

/-- C10: when a row's company identifier was already seen in the same run,
the entire extracted output of the row is discarded: the loop state is
unchanged — its relationships are not appended and its persons are not
added — and the run equals the run without that row. -/
theorem duplicate_row_discarded (limit : Nat) (st : ORState) (row : Row)
    (rest : List Row) (c : Entity) (rels : List Rel) (ps : List (Str × Entity))
    (h : parse_or_row row = .ok (.triple (some c) rels ps))
    (hdup : c.id ∈ st.icos) :
    stepRow st row = st ∧ orFold limit st (row :: rest) = orFold limit st rest := by
  have hs := stepRow_dup h hdup
  refine ⟨hs, ?_⟩
  by_cases hl : limit ≤ st.parsedCount
  · rw [orFold_stop hl, orFold_stop hl]
  · calc orFold limit st (row :: rest)
        = orFold limit (stepRow st row) rest := by simp [orFold, hl]
      _ = orFold limit st rest := by rw [hs]

/-- Witness for C10 at a state that has already seen the identifier. -/
theorem duplicate_row_discarded_witness : stepRow stSeen rowGood = stSeen :=
  (duplicate_row_discarded 5 stSeen rowGood [] cGood [] [] rfl (by decide)).1

end Prepify
